import Mathlib

/-!
Verification of the KTX2 reader library (`src/lib.rs`).

The development shallowly embeds the Rust source:

* Bytes are `Nat` values; every byte extracted from a stream is reduced
  modulo 256, mirroring the `u8` type.
* `u32`/`u64` arithmetic that can overflow in the source is modelled with
  explicit `% 2^32` / `% 2^64`, matching the two's-complement wrapping
  behaviour of release builds; the `u32` right shift masks its shift
  amount modulo the bit width, as compiled Rust does.
* The caller-supplied `AsyncRead + AsyncSeek` stream is modelled as a
  `ByteStream`: an immutable byte list, a cursor, and a trace of the
  seek/read operations issued on it, so that theorems can observe which
  I/O a code path performs.
* Panicking code paths (slice indexing out of bounds, `expect` on an
  empty iterator result, the explicit bad-buffer branch in `read_data`)
  are modelled by an `Option` layer: `none` is a panic.
* `byteorder::NativeEndian` decodes with the byte order of the host, so
  every decoding function takes a flag `le : Bool` telling whether the
  host is little-endian.
-/

deriving instance DecidableEq for Except

set_option maxRecDepth 100000

namespace Ktx2

/-- One operation issued on the underlying stream: an absolute seek
(`SeekFrom::Start`) or a `read_exact` of a given number of bytes. -/
inductive StreamOp where
  | seek (target : Nat)
  | read (len : Nat)
deriving DecidableEq, Repr

/-- Model of the `AsyncRead + AsyncSeek` input handle: the full byte
content, the current cursor, and the trace of operations issued so far. -/
structure ByteStream where
  data : List Nat
  pos : Nat
  ops : List StreamOp
deriving DecidableEq, Repr

/-- `read_exact` on the model stream: succeeds iff `n` bytes are
available at the cursor, advancing it; on failure (EOF) the cursor is
left in place and an I/O error is reported.  The attempted read is
recorded in the trace either way. -/
def ByteStream.readExact (s : ByteStream) (n : Nat) : Option (List Nat) × ByteStream :=
  if s.pos + n ≤ s.data.length then
    (some ((s.data.drop s.pos).take n), ⟨s.data, s.pos + n, s.ops ++ [.read n]⟩)
  else
    (none, ⟨s.data, s.pos, s.ops ++ [.read n]⟩)

/-- `seek(SeekFrom::Start(target))` on the model stream. -/
def ByteStream.seek (s : ByteStream) (target : Nat) : ByteStream :=
  ⟨s.data, target, s.ops ++ [.seek target]⟩

/-- The byte at index `i`, as the `u8` the Rust code sees (out-of-range
indices are never accessed by call sites on well-formed data; the
default 0 keeps the function total). -/
def byteAt (data : List Nat) (i : Nat) : Nat :=
  data.getD i 0 % 256

/-- `byteorder` 32-bit read: little-endian when `le = true`, big-endian
otherwise.  `NativeEndian::read_u32` is this function applied at the
host's byte order. -/
def readU32N (le : Bool) (data : List Nat) (off : Nat) : Nat :=
  if le then
    byteAt data off + 256 * byteAt data (off + 1) +
      65536 * byteAt data (off + 2) + 16777216 * byteAt data (off + 3)
  else
    byteAt data (off + 3) + 256 * byteAt data (off + 2) +
      65536 * byteAt data (off + 1) + 16777216 * byteAt data off

/-- `byteorder` 64-bit read, as `readU32N`. -/
def readU64N (le : Bool) (data : List Nat) (off : Nat) : Nat :=
  if le then
    byteAt data off + 256 * byteAt data (off + 1) +
      65536 * byteAt data (off + 2) + 16777216 * byteAt data (off + 3) +
      4294967296 * byteAt data (off + 4) + 1099511627776 * byteAt data (off + 5) +
      281474976710656 * byteAt data (off + 6) + 72057594037927936 * byteAt data (off + 7)
  else
    byteAt data (off + 7) + 256 * byteAt data (off + 6) +
      65536 * byteAt data (off + 5) + 16777216 * byteAt data (off + 4) +
      4294967296 * byteAt data (off + 3) + 1099511627776 * byteAt data (off + 2) +
      281474976710656 * byteAt data (off + 1) + 72057594037927936 * byteAt data off

/-- Errors raised while parsing, from `error.rs` (the file is not under
`src/`; the variants are modelled from the spec's error taxonomy and
from the constructors used by `lib.rs`). -/
inductive ParseError where
  | badIdentifier (found : List Nat)
  | unknownFormat (id : Nat)
  | zeroWidth
  | zeroFaceCount
  | unsupportedFeature (feature : String)
deriving DecidableEq, Repr

/-- Errors raised by a read: an underlying I/O failure (the payload of
the real `IoError` variant is irrelevant here) or a parse failure. -/
inductive ReadError where
  | ioError
  | parseError (e : ParseError)
deriving DecidableEq, Repr

/-- Errors raised by `read_data_to`: a propagated read error, or a
caller-supplied buffer of the wrong length (carrying the expected
length). -/
inductive ReadToError where
  | readError (e : ReadError)
  | badBuffer (expected : Nat)
deriving DecidableEq, Repr

/-- Modelled from the spec: `format.rs` is not under `src/`.  The format
registry resolves a raw `u32` format id to a known texel format, and an
unrecognized id is a decode failure carrying the raw id.  A format is
modelled as its raw id and the registry as a predicate on ids, left as a
parameter `reg` everywhere. -/
def formatFromU32 (reg : Nat → Bool) (id : Nat) : Except ParseError Nat :=
  if reg id then .ok id else .error (.unknownFormat id)

/-- Modelled from the spec: a concrete single-entry format registry used
for evaluating the development on concrete streams (id 37 is
`VK_FORMAT_R8G8B8A8_UNORM`, a format every real registry contains). -/
def sampleFormatRegistry : Nat → Bool := fun id => id == 37

/-- The `Header` struct: general information about the texture.  The
`format` field holds the resolved format (its raw id, see
`formatFromU32`); all other fields are the decoded `u32` values. -/
structure Header where
  format : Nat
  type_size : Nat
  base_width : Nat
  base_height : Nat
  base_depth : Nat
  layer_count : Nat
  face_count : Nat
  level_count : Nat
  supercompression_scheme : Nat
deriving DecidableEq, Repr

/-- `Header::parse_base_width`: the base width must be nonzero. -/
def parse_base_width (le : Bool) (data : List Nat) : Except ParseError Nat :=
  let result := readU32N le data 0
  if result = 0 then .error .zeroWidth else .ok result

/-- `Header::parse_face_count`: the face count must be nonzero. -/
def parse_face_count (le : Bool) (data : List Nat) : Except ParseError Nat :=
  let result := readU32N le data 0
  if result = 0 then .error .zeroFaceCount else .ok result

/-- `Header::parse_supercompression_scheme`: only scheme 0 (none) is
supported. -/
def parse_supercompression_scheme (le : Bool) (data : List Nat) : Except ParseError Nat :=
  let result := readU32N le data 0
  if result = 0 then .ok 0 else .error (.unsupportedFeature "supercompression scheme")

/-- `Header::from_bytes` on the 48-byte head block.  Field expressions
are evaluated in the source's struct-literal order, so the fallible
steps run as: format, base width, face count, supercompression
scheme. -/
def Header.from_bytes (le : Bool) (reg : Nat → Bool) (data : List Nat) :
    Except ParseError Header := do
  let format ← formatFromU32 reg (readU32N le data 12)
  let base_width ← parse_base_width le ((data.drop 20).take 4)
  let face_count ← parse_face_count le ((data.drop 36).take 4)
  let scheme ← parse_supercompression_scheme le ((data.drop 44).take 4)
  .ok ⟨format, readU32N le data 16, base_width, readU32N le data 24, readU32N le data 28,
    readU32N le data 32, face_count, readU32N le data 40, scheme⟩

/-- The fixed 12-byte KTX2 magic identifier (`KTX2_IDENTIFIER`). -/
def ktx2Identifier : List Nat :=
  [0xAB, 0x4B, 0x54, 0x58, 0x20, 0x32, 0x30, 0xBB, 0x0D, 0x0A, 0x1A, 0x0A]

/-- `Reader::test_identifier`: the first 12 of the 48 head bytes must
equal the magic; on mismatch the 12 bytes actually read are reported. -/
def test_identifier (head_bytes : List Nat) : Except ReadError Unit :=
  let red_id := head_bytes.take 12
  if red_id = ktx2Identifier then .ok ()
  else .error (.parseError (.badIdentifier red_id))

/-- One level-index entry: absolute byte offset of the level's data,
stored (possibly supercompressed) length, and uncompressed length. -/
structure LevelIndex where
  offset : Nat
  length_bytes : Nat
  uncompressed_length_bytes : Nat
deriving DecidableEq, Repr

/-- `LevelIndex::from_bytes`: three consecutive 8-byte reads. -/
def LevelIndex.from_bytes (le : Bool) (data : List Nat) : LevelIndex :=
  ⟨readU64N le data 0, readU64N le data 8, readU64N le data 16⟩

/-- Rust range slicing `bytes[start..stop]`: panics (here `none`) when
the range is invalid or past the end. -/
def slice? (bytes : List Nat) (start stop : Nat) : Option (List Nat) :=
  if start ≤ stop ∧ stop ≤ bytes.length then
    some ((bytes.drop start).take (stop - start))
  else none

/-- The slicing loop of `read_level_index`: for `level_index` in
`i, i+1, ...` (with `rem` iterations left) slice 24 bytes starting at
`level_index * 24` (a `u32` product, hence the `% 2^32`) and decode
them.  A `none` is the out-of-bounds slice panic. -/
def sliceEntriesGo (le : Bool) (bytes : List Nat) : Nat → Nat → Option (List LevelIndex)
  | _, 0 => some []
  | i, rem + 1 =>
    match slice? bytes ((i * 24) % 4294967296) ((i * 24) % 4294967296 + 24) with
    | none => none
    | some level_bytes =>
      match sliceEntriesGo le bytes (i + 1) rem with
      | none => none
      | some rest => some (.from_bytes le level_bytes :: rest)

/-- Slice the level-index byte block into `count` 24-byte entries. -/
def sliceEntries (le : Bool) (bytes : List Nat) (count : Nat) : Option (List LevelIndex) :=
  sliceEntriesGo le bytes 0 count

/-- The decoded reader: the owned stream, the header, and the level
index. -/
structure Reader where
  input : ByteStream
  head : Header
  levels_index : List LevelIndex
deriving DecidableEq, Repr

/-- `Reader::read_head`: read the 48-byte head in one `read_exact`,
check the identifier, then decode the header fields. -/
def read_head (le : Bool) (reg : Nat → Bool) (input : ByteStream) :
    Except ReadError Header × ByteStream :=
  match input.readExact 48 with
  | (none, s) => (.error .ioError, s)
  | (some head_bytes, s) =>
    match test_identifier head_bytes with
    | .error e => (.error e, s)
    | .ok _ => ((Header.from_bytes le reg head_bytes).mapError ReadError.parseError, s)

/-- `Reader::read_level_index`: seek to the fixed offset 80, read
`max(level_count,1) * 24` bytes (a `u32` product: it wraps modulo
`2^32`) in one `read_exact`, and slice the block into entries.  A
`none` in the first component is the panic of an out-of-bounds slice in
the loop. -/
def read_level_index (le : Bool) (input : ByteStream) (head : Header) :
    Option (Except ReadError (List LevelIndex)) × ByteStream :=
  let level_count := max head.level_count 1
  let level_index_bytes_len := (level_count * 24) % 4294967296
  match (input.seek 80).readExact level_index_bytes_len with
  | (none, s) => (some (.error .ioError), s)
  | (some level_index_bytes, s) =>
    match sliceEntries le level_index_bytes level_count with
    | none => (none, s)
    | some infos => (some (.ok infos), s)

/-- `Reader::new`: run the head decode then the level-index decode; the
first failure aborts construction.  The final stream state is returned
alongside the result so the I/O trace stays observable (the Rust
function owns and drops the handle on failure); `none` is a panic
during level-index decoding. -/
def Reader.new (le : Bool) (reg : Nat → Bool) (input : ByteStream) :
    Option (Except ReadError Reader × ByteStream) :=
  match read_head le reg input with
  | (.error e, s) => some (.error e, s)
  | (.ok head, s) =>
    match read_level_index le s head with
    | (none, _) => none
    | (some (.error e), s') => some (.error e, s')
    | (some (.ok levels_index), s') => some (.ok ⟨s', head, levels_index⟩, s')

/-- First (smallest) minimum of a list of naturals, `none` on the empty
list (`Iterator::min`). -/
def listMinNat? : List Nat → Option Nat
  | [] => none
  | x :: xs =>
    match listMinNat? xs with
    | none => some x
    | some m => some (min x m)

/-- `Reader::first_level_offset_bytes`: the minimum entry offset; the
`expect` on an empty level index is the `none` case. -/
def Reader.first_level_offset_bytes (r : Reader) : Option Nat :=
  listMinNat? (r.levels_index.map LevelIndex.offset)

/-- The fold of `Iterator::max_by_key`: the later element wins ties. -/
def lastByOffset (acc : LevelIndex) : List LevelIndex → LevelIndex
  | [] => acc
  | y :: ys => lastByOffset (if acc.offset > y.offset then acc else y) ys

/-- `Reader::last_level`: the entry with maximal offset (the last such
entry on ties, per `max_by_key`); the `expect` on an empty level index
is the `none` case. -/
def Reader.last_level (r : Reader) : Option LevelIndex :=
  match r.levels_index with
  | [] => none
  | x :: xs => some (lastByOffset x xs)

/-- `Reader::data_len_bytes`: `last.offset + last.uncompressed_length
- first_offset` in wrapping `u64` arithmetic. -/
def Reader.data_len_bytes (r : Reader) : Option Nat :=
  match r.first_level_offset_bytes, r.last_level with
  | some start_offset, some last =>
    some (((last.offset + last.uncompressed_length_bytes) % 18446744073709551616 +
      18446744073709551616 - start_offset) % 18446744073709551616)
  | _, _ => none

/-- `Reader::level_size`: `(base >> level).max(1)`.  The `u32` shift
masks its amount modulo the bit width, as the compiled code does. -/
def level_size (base level : Nat) : Nat :=
  max (base >>> (level % 32)) 1

/-- Per-level region description derived from header and level index. -/
structure RegionDescription where
  level : Nat
  layer_count : Nat
  offset_bytes : Nat
  width : Nat
  height : Nat
  depth : Nat
deriving DecidableEq, Repr

/-- `Reader::region_from_level_index`: `i as u32` casts wrap modulo
`2^32`, as does the `u32` product `layer_count.max(1) * face_count`. -/
def Reader.region_from_level_index (r : Reader) (i : Nat) (offset : Nat) : RegionDescription :=
  ⟨i % 4294967296,
   (max r.head.layer_count 1 * r.head.face_count) % 4294967296,
   offset,
   level_size r.head.base_width (i % 4294967296),
   level_size r.head.base_height (i % 4294967296),
   level_size r.head.base_depth (i % 4294967296)⟩

/-- `Reader::regions_description`: one region per level-index entry, in
level order; the per-entry relative offset is the wrapping `u64`
difference `entry.offset - first_level_offset`.  `none` is the panic of
`first_level_offset_bytes` on an empty level index. -/
def Reader.regions_description (r : Reader) : Option (List RegionDescription) :=
  match r.first_level_offset_bytes with
  | none => none
  | some base_offset =>
    some (r.levels_index.enum.map (fun p =>
      r.region_from_level_index p.1
        ((p.2.offset + 18446744073709551616 - base_offset) % 18446744073709551616)))

/-- `Reader::read_data_to`: reject a buffer whose length is not exactly
`data_len_bytes` (before any I/O), else seek to the first level offset
and fill the buffer with one `read_exact`.  The returned list is the
buffer content after a successful read; `none` is a panic inside
`data_len_bytes`/`first_level_offset_bytes`. -/
def Reader.read_data_to (r : Reader) (buf : List Nat) :
    Option (Except ReadToError (List Nat) × Reader) :=
  match r.data_len_bytes with
  | none => none
  | some data_len_bytes =>
    if buf.length = data_len_bytes then
      match r.first_level_offset_bytes with
      | none => none
      | some data_start_byte =>
        match (r.input.seek data_start_byte).readExact buf.length with
        | (none, s) => some (.error (.readError .ioError), ⟨s, r.head, r.levels_index⟩)
        | (some bytes, s) => some (.ok bytes, ⟨s, r.head, r.levels_index⟩)
    else some (.error (.badBuffer data_len_bytes), r)

/-- `Reader::read_data`: allocate a zeroed buffer of length
`data_len_bytes`, delegate to `read_data_to`, unwrap read errors and
treat a bad-buffer result as a panic (`none`), as the source's
explicit panicking branch does. -/
def Reader.read_data (r : Reader) : Option (Except ReadError (List Nat) × Reader) :=
  match r.data_len_bytes with
  | none => none
  | some data_len_bytes =>
    match r.read_data_to (List.replicate data_len_bytes 0) with
    | none => none
    | some (.ok bytes, r₂) => some (.ok bytes, r₂)
    | some (.error (.readError e), r₂) => some (.error e, r₂)
    | some (.error (.badBuffer _), _) => none

/-! ### Concrete sample data

Little-endian encoders and concrete streams used to evaluate the
development on explicit inputs. -/

/-- Encode a value below `2^32` as 4 little-endian bytes. -/
def u32le (n : Nat) : List Nat :=
  [n % 256, n / 256 % 256, n / 65536 % 256, n / 16777216 % 256]

/-- Encode a value below `2^64` as 8 little-endian bytes. -/
def u64le (n : Nat) : List Nat :=
  u32le (n % 4294967296) ++ u32le (n / 4294967296)

/-- The spec's end-to-end scenario: a single-level, single-layer,
single-face stream, base 4x4x1, one level-index entry
`(offset 104, length 64, uncompressed 64)` followed by 64 payload
bytes. -/
def goodData : List Nat :=
  ktx2Identifier ++ u32le 37 ++ u32le 1 ++ u32le 4 ++ u32le 4 ++ u32le 1 ++
    u32le 0 ++ u32le 1 ++ u32le 1 ++ u32le 0 ++ List.replicate 32 0 ++
    u64le 104 ++ u64le 64 ++ u64le 64 ++ List.replicate 64 7

/-- The end-to-end scenario stream, cursor at the start. -/
def goodStream : ByteStream := ⟨goodData, 0, []⟩

/-- The header decoded from `goodData`. -/
def goodHeader : Header := ⟨37, 1, 4, 4, 1, 0, 1, 1, 0⟩

/-- The reader built from `goodStream`. -/
def goodReader : Reader :=
  ⟨⟨goodData, 104, [.read 48, .seek 80, .read 24]⟩, goodHeader, [⟨104, 64, 64⟩]⟩

/-- A two-level stream whose levels are laid out so that the entry with
the larger offset has the smaller end: entry 0 is
`(offset 90, length 30, uncompressed 30)`, entry 1 is
`(offset 100, length 10, uncompressed 10)`. -/
def twoLevelData : List Nat :=
  ktx2Identifier ++ u32le 37 ++ u32le 1 ++ u32le 4 ++ u32le 4 ++ u32le 1 ++
    u32le 0 ++ u32le 1 ++ u32le 2 ++ u32le 0 ++ List.replicate 32 0 ++
    u64le 90 ++ u64le 30 ++ u64le 30 ++ u64le 100 ++ u64le 10 ++ u64le 10

/-- The two-level stream, cursor at the start. -/
def twoLevelStream : ByteStream := ⟨twoLevelData, 0, []⟩

/-- The maximum of a list of naturals, `none` on the empty list. -/
def listMaxNat? : List Nat → Option Nat
  | [] => none
  | x :: xs =>
    match listMaxNat? xs with
    | none => some x
    | some m => some (max x m)

/-- The payload-length formula in the words of the spec's claim:
`(max over entries of offset + uncompressed_length) - (min over entries
of offset)`.  Stated to be compared against `Reader.data_len_bytes`. -/
def claimedPayloadLen (entries : List LevelIndex) : Option Nat :=
  match listMinNat? (entries.map LevelIndex.offset),
      listMaxNat? (entries.map (fun e => e.offset + e.uncompressed_length_bytes)) with
  | some m, some mx => some (mx - m)
  | _, _ => none

/-- A reader with 33 mip levels over a 17x17x17 base, all level-index
entries zero (region geometry does not read the stream, so the stream
is irrelevant). -/
def deepMipReader : Reader :=
  ⟨⟨[], 0, []⟩, ⟨37, 1, 17, 17, 17, 0, 1, 33, 0⟩, List.replicate 33 ⟨0, 0, 0⟩⟩

/-- The regions derived from `deepMipReader`. -/
def deepMipRegs : List RegionDescription :=
  (deepMipReader.regions_description).getD []

/-- A header whose level count makes `max(level_count,1) * 24` overflow
`u32`: `178956971 * 24 = 2^32 + 8`. -/
def hugeLevelHeader : Header := ⟨37, 1, 4, 4, 1, 0, 1, 178956971, 0⟩

/-- An 80-byte all-zero stream: long enough for the header area, with
nothing after the level-index start offset. -/
def shortZeroStream : ByteStream := ⟨List.replicate 80 0, 0, []⟩

/-- 48 head bytes whose identifier has byte 5 equal to `0x34` (the
character `4`) instead of `0x32` (`2`). -/
def badMagicData : List Nat :=
  [0xAB, 0x4B, 0x54, 0x58, 0x20, 0x34, 0x30, 0xBB, 0x0D, 0x0A, 0x1A, 0x0A] ++
    List.replicate 36 0

/-- The stream over `badMagicData`. -/
def badMagicStream : ByteStream := ⟨badMagicData, 0, []⟩

/-- A 48-byte stream with a valid identifier whose base width AND face
count are both zero (format id 0). -/
def zeroWidthFaceData : List Nat := ktx2Identifier ++ List.replicate 36 0

/-- The stream over `zeroWidthFaceData`. -/
def zeroWidthFaceStream : ByteStream := ⟨zeroWidthFaceData, 0, []⟩

/-- A 48-byte stream with a valid identifier, format id 37 and base
width zero (face count 1, scheme 0). -/
def zeroWidthData : List Nat :=
  ktx2Identifier ++ u32le 37 ++ u32le 0 ++ u32le 0 ++ u32le 0 ++ u32le 0 ++
    u32le 0 ++ u32le 1 ++ u32le 1 ++ u32le 0

/-- The stream over `zeroWidthData`. -/
def zeroWidthStream : ByteStream := ⟨zeroWidthData, 0, []⟩

/-- 48 head bytes that decode successfully under either byte order:
the base-width field holds bytes `01 00 00 00`, the face-count field
holds `01 00 00 00`, everything else (apart from the ignored
identifier area) is zero. -/
def nativeEndianHeadBytes : List Nat :=
  List.replicate 20 0 ++ [1, 0, 0, 0] ++ List.replicate 12 0 ++ [1, 0, 0, 0] ++
    List.replicate 8 0

/-! ### Helper lemmas -/

theorem byteAt_lt (data : List Nat) (i : Nat) : byteAt data i < 256 :=
  Nat.mod_lt _ (by omega)

theorem readU32N_lt (le : Bool) (data : List Nat) (off : Nat) :
    readU32N le data off < 4294967296 := by
  have h0 := byteAt_lt data off
  have h1 := byteAt_lt data (off + 1)
  have h2 := byteAt_lt data (off + 2)
  have h3 := byteAt_lt data (off + 3)
  unfold readU32N
  split <;> omega

theorem readU64N_lt (le : Bool) (data : List Nat) (off : Nat) :
    readU64N le data off < 18446744073709551616 := by
  have h0 := byteAt_lt data off
  have h1 := byteAt_lt data (off + 1)
  have h2 := byteAt_lt data (off + 2)
  have h3 := byteAt_lt data (off + 3)
  have h4 := byteAt_lt data (off + 4)
  have h5 := byteAt_lt data (off + 5)
  have h6 := byteAt_lt data (off + 6)
  have h7 := byteAt_lt data (off + 7)
  unfold readU64N
  split <;> omega

theorem byteAt_drop_take (data : List Nat) (a n i : Nat) (hi : i < n) :
    byteAt ((data.drop a).take n) i = byteAt data (a + i) := by
  unfold byteAt
  rw [List.getD_eq_getElem?_getD, List.getD_eq_getElem?_getD,
    List.getElem?_take, if_pos hi, List.getElem?_drop]

theorem byteAt_take (data : List Nat) (n i : Nat) (hi : i < n) :
    byteAt (data.take n) i = byteAt data i := by
  unfold byteAt
  rw [List.getD_eq_getElem?_getD, List.getD_eq_getElem?_getD,
    List.getElem?_take, if_pos hi]

theorem readU32N_drop_take (le : Bool) (data : List Nat) (a : Nat) :
    readU32N le ((data.drop a).take 4) 0 = readU32N le data a := by
  unfold readU32N
  rw [byteAt_drop_take data a 4 0 (by omega), byteAt_drop_take data a 4 1 (by omega),
    byteAt_drop_take data a 4 2 (by omega), byteAt_drop_take data a 4 3 (by omega)]
  simp

theorem readU32N_take (le : Bool) (data : List Nat) (n a : Nat) (h : a + 4 ≤ n) :
    readU32N le (data.take n) a = readU32N le data a := by
  unfold readU32N
  rw [byteAt_take data n a (by omega), byteAt_take data n (a + 1) (by omega),
    byteAt_take data n (a + 2) (by omega), byteAt_take data n (a + 3) (by omega)]

theorem listMinNat?_of_ne_nil : ∀ (l : List Nat), l ≠ [] → ∃ m, listMinNat? l = some m := by
  intro l hl
  cases l with
  | nil => exact absurd rfl hl
  | cons x xs =>
    unfold listMinNat?
    cases listMinNat? xs <;> exact ⟨_, rfl⟩

theorem listMinNat?_eq_none : ∀ {l : List Nat}, listMinNat? l = none → l = [] := by
  intro l h
  cases l with
  | nil => rfl
  | cons x xs =>
    unfold listMinNat? at h
    cases ht : listMinNat? xs <;> rw [ht] at h <;> simp at h

theorem listMinNat?_le : ∀ {l : List Nat} {m : Nat}, listMinNat? l = some m →
    ∀ x ∈ l, m ≤ x := by
  intro l
  induction l with
  | nil => intro m h; simp [listMinNat?] at h
  | cons a t ih =>
    intro m h x hx
    unfold listMinNat? at h
    cases ht : listMinNat? t with
    | none =>
      rw [ht] at h
      rcases listMinNat?_eq_none ht with rfl
      simp at h hx
      omega
    | some mt =>
      rw [ht] at h
      simp at h
      rcases List.mem_cons.mp hx with rfl | hxt
      · omega
      · have := ih ht x hxt
        omega

theorem listMinNat?_mem : ∀ {l : List Nat} {m : Nat}, listMinNat? l = some m → m ∈ l := by
  intro l
  induction l with
  | nil => intro m h; simp [listMinNat?] at h
  | cons a t ih =>
    intro m h
    unfold listMinNat? at h
    cases ht : listMinNat? t with
    | none =>
      rw [ht] at h
      simp at h
      simp [h]
    | some mt =>
      rw [ht] at h
      simp at h
      rcases Nat.le_total a mt with hle | hle
      · rw [Nat.min_eq_left hle] at h
        simp [h]
      · rw [Nat.min_eq_right hle] at h
        exact List.mem_cons_of_mem a (h ▸ ih ht)

theorem lastByOffset_mem : ∀ (ys : List LevelIndex) (acc : LevelIndex),
    lastByOffset acc ys = acc ∨ lastByOffset acc ys ∈ ys := by
  intro ys
  induction ys with
  | nil => intro acc; left; rfl
  | cons y t ih =>
    intro acc
    unfold lastByOffset
    rcases ih (if acc.offset > y.offset then acc else y) with h | h
    · rw [h]
      split
      · left; rfl
      · right; exact List.mem_cons_self y t
    · right; exact List.mem_cons_of_mem y h

theorem lastByOffset_le : ∀ (ys : List LevelIndex) (acc : LevelIndex),
    acc.offset ≤ (lastByOffset acc ys).offset ∧
    ∀ e ∈ ys, e.offset ≤ (lastByOffset acc ys).offset := by
  intro ys
  induction ys with
  | nil => intro acc; exact ⟨Nat.le_refl _, by simp⟩
  | cons y t ih =>
    intro acc
    unfold lastByOffset
    rcases ih (if acc.offset > y.offset then acc else y) with ⟨h1, h2⟩
    have hacc : acc.offset ≤ (if acc.offset > y.offset then acc else y).offset := by
      split <;> omega
    have hy : y.offset ≤ (if acc.offset > y.offset then acc else y).offset := by
      split <;> omega
    refine ⟨Nat.le_trans hacc h1, ?_⟩
    intro e he
    rcases List.mem_cons.mp he with rfl | het
    · exact Nat.le_trans hy h1
    · exact h2 e het

theorem wrapSub_eq_of_lt (U A m : Nat) (hm : m ≤ A) (hA : A < U) :
    (A + U - m) % U = A - m := by
  have h1 : A + U - m = A - m + U := by omega
  rw [h1, Nat.add_mod_right, Nat.mod_eq_of_lt (by omega)]

theorem wrapSub_eq (U A m : Nat) (hm : m ≤ A) (hA : A < U) :
    (A % U + U - m) % U = A - m := by
  rw [Nat.mod_eq_of_lt hA]
  exact wrapSub_eq_of_lt U A m hm hA

theorem wrapAddSub_cancel (U A B : Nat) (hA : A < U) (hB : B < U) :
    ((A + B) % U + U - A) % U = B := by
  rcases Nat.lt_or_ge (A + B) U with h | h
  · rw [Nat.mod_eq_of_lt h]
    have h1 : A + B + U - A = B + U := by omega
    rw [h1, Nat.add_mod_right, Nat.mod_eq_of_lt hB]
  · have h1 : (A + B) % U = A + B - U := by
      rw [Nat.mod_eq_sub_mod h, Nat.mod_eq_of_lt (by omega)]
    rw [h1]
    have h2 : A + B - U + U - A = B := by omega
    rw [h2, Nat.mod_eq_of_lt hB]

theorem sliceEntriesGo_length (le : Bool) (bytes : List Nat) :
    ∀ (rem i : Nat) (l : List LevelIndex),
      sliceEntriesGo le bytes i rem = some l → l.length = rem := by
  intro rem
  induction rem with
  | zero =>
    intro i l h
    simp [sliceEntriesGo] at h
    simp [h.symm]
  | succ n ih =>
    intro i l h
    unfold sliceEntriesGo at h
    cases h1 : slice? bytes ((i * 24) % 4294967296) ((i * 24) % 4294967296 + 24) with
    | none => rw [h1] at h; simp at h
    | some chunk =>
      rw [h1] at h
      cases h2 : sliceEntriesGo le bytes (i + 1) n with
      | none => rw [h2] at h; simp at h
      | some rest =>
        rw [h2] at h
        simp at h
        rw [h.symm]
        simp [ih (i + 1) rest h2]

theorem sliceEntriesGo_mem (le : Bool) (bytes : List Nat) :
    ∀ (rem i : Nat) (l : List LevelIndex),
      sliceEntriesGo le bytes i rem = some l →
      ∀ e ∈ l, ∃ c, e = LevelIndex.from_bytes le c := by
  intro rem
  induction rem with
  | zero =>
    intro i l h
    simp [sliceEntriesGo] at h
    subst h
    simp
  | succ n ih =>
    intro i l h e he
    unfold sliceEntriesGo at h
    cases h1 : slice? bytes ((i * 24) % 4294967296) ((i * 24) % 4294967296 + 24) with
    | none => rw [h1] at h; simp at h
    | some chunk =>
      rw [h1] at h
      cases h2 : sliceEntriesGo le bytes (i + 1) n with
      | none => rw [h2] at h; simp at h
      | some rest =>
        rw [h2] at h
        simp at h
        rw [h.symm] at he
        rcases List.mem_cons.mp he with rfl | het
        · exact ⟨chunk, rfl⟩
        · exact ih (i + 1) rest h2 e het

theorem levelIndex_from_bytes_lt (le : Bool) (c : List Nat) :
    (LevelIndex.from_bytes le c).offset < 18446744073709551616 ∧
    (LevelIndex.from_bytes le c).length_bytes < 18446744073709551616 ∧
    (LevelIndex.from_bytes le c).uncompressed_length_bytes < 18446744073709551616 :=
  ⟨readU64N_lt le c 0, readU64N_lt le c 8, readU64N_lt le c 16⟩

theorem sliceEntriesGo_spec (le : Bool) (bytes : List Nat) :
    ∀ (rem i : Nat), (i + rem) * 24 ≤ bytes.length → (i + rem) * 24 < 4294967296 →
      ∃ l, sliceEntriesGo le bytes i rem = some l ∧ l.length = rem ∧
        ∀ j, j < rem →
          l[j]? = some (LevelIndex.from_bytes le ((bytes.drop ((i + j) * 24)).take 24)) := by
  intro rem
  induction rem with
  | zero =>
    intro i hlen hlt
    exact ⟨[], rfl, rfl, by omega⟩
  | succ n ih =>
    intro i hlen hlt
    have hmod : (i * 24) % 4294967296 = i * 24 := Nat.mod_eq_of_lt (by omega)
    have hslice : slice? bytes (i * 24) (i * 24 + 24) =
        some ((bytes.drop (i * 24)).take 24) := by
      unfold slice?
      rw [if_pos (by omega)]
      have h24 : i * 24 + 24 - i * 24 = 24 := by omega
      rw [h24]
    rcases ih (i + 1) (by omega) (by omega) with ⟨rest, hrest, hlenr, hget⟩
    refine ⟨LevelIndex.from_bytes le ((bytes.drop (i * 24)).take 24) :: rest, ?_, by simp [hlenr], ?_⟩
    · unfold sliceEntriesGo
      rw [hmod, hslice, hrest]
    · intro j hj
      cases j with
      | zero => simp
      | succ k =>
        have hk := hget k (by omega)
        simp only [List.getElem?_cons_succ]
        rw [hk]
        have h3 : i + 1 + k = i + (k + 1) := by omega
        rw [h3]

theorem header_from_bytes_eq (le : Bool) (reg : Nat → Bool) (d : List Nat) :
    Header.from_bytes le reg d =
      if reg (readU32N le d 12) = true then
        if readU32N le d 20 = 0 then .error .zeroWidth
        else if readU32N le d 36 = 0 then .error .zeroFaceCount
        else if readU32N le d 44 = 0 then
          .ok ⟨readU32N le d 12, readU32N le d 16, readU32N le d 20, readU32N le d 24,
            readU32N le d 28, readU32N le d 32, readU32N le d 36, readU32N le d 40, 0⟩
        else .error (.unsupportedFeature "supercompression scheme")
      else .error (.unknownFormat (readU32N le d 12)) := by
  unfold Header.from_bytes formatFromU32 parse_base_width parse_face_count
    parse_supercompression_scheme
  rw [readU32N_drop_take le d 20, readU32N_drop_take le d 36, readU32N_drop_take le d 44]
  by_cases hreg : reg (readU32N le d 12) = true <;>
    by_cases h20 : readU32N le d 20 = 0 <;>
    by_cases h36 : readU32N le d 36 = 0 <;>
    by_cases h44 : readU32N le d 44 = 0 <;>
    simp [hreg, h20, h36, h44, Bind.bind, Except.bind]

theorem read_head_eq (le : Bool) (reg : Nat → Bool) (s : ByteStream)
    (hpos : s.pos = 0) (hlen : 48 ≤ s.data.length) :
    read_head le reg s =
      ((if s.data.take 12 = ktx2Identifier
        then (Header.from_bytes le reg (s.data.take 48)).mapError ReadError.parseError
        else .error (.parseError (.badIdentifier (s.data.take 12)))),
       ⟨s.data, 48, s.ops ++ [.read 48]⟩) := by
  unfold read_head ByteStream.readExact
  rw [hpos]
  rw [if_pos (by omega)]
  simp only [List.drop_zero, Nat.zero_add]
  unfold test_identifier
  have h12 : (s.data.take 48).take 12 = s.data.take 12 := by
    rw [List.take_take]
    norm_num
  rw [h12]
  by_cases hid : s.data.take 12 = ktx2Identifier <;> simp [hid]

theorem reader_new_of_read_head_error (le : Bool) (reg : Nat → Bool) (s s' : ByteStream)
    (e : ReadError) (h : read_head le reg s = (.error e, s')) :
    Reader.new le reg s = some (.error e, s') := by
  unfold Reader.new
  rw [h]

theorem reader_new_ok_inv (le : Bool) (reg : Nat → Bool) (s s₁ : ByteStream) (r : Reader)
    (hnew : Reader.new le reg s = some (.ok r, s₁)) :
    r.levels_index.length = max r.head.level_count 1 ∧
    ∀ e ∈ r.levels_index, e.offset < 18446744073709551616 ∧
      e.length_bytes < 18446744073709551616 ∧
      e.uncompressed_length_bytes < 18446744073709551616 := by
  unfold Reader.new at hnew
  split at hnew
  · simp at hnew
  · rename_i head s₂ hhead
    split at hnew
    · simp at hnew
    · simp at hnew
    · rename_i levels s₃ hlev
      simp at hnew
      rcases hnew with ⟨hr, _⟩
      simp only [read_level_index] at hlev
      split at hlev
      · simp at hlev
      · rename_i bytes s₄ hread
        split at hlev
        · simp at hlev
        · rename_i infos hslice
          simp at hlev
          rcases hlev with ⟨hinfos, _⟩
          rw [hr.symm]
          constructor
          · exact hinfos ▸ sliceEntriesGo_length le bytes _ 0 infos hslice
          · intro e he
            rcases sliceEntriesGo_mem le bytes _ 0 infos hslice e (hinfos ▸ he) with ⟨c, rfl⟩
            exact levelIndex_from_bytes_lt le c

theorem reader_new_ok_nonempty (le : Bool) (reg : Nat → Bool) (s s₁ : ByteStream) (r : Reader)
    (hnew : Reader.new le reg s = some (.ok r, s₁)) : r.levels_index ≠ [] := by
  have hlen := (reader_new_ok_inv le reg s s₁ r hnew).1
  intro hnil
  rw [hnil] at hlen
  simp at hlen
  omega

theorem goodReader_new :
    Reader.new true sampleFormatRegistry goodStream = some (.ok goodReader, goodReader.input) := by
  decide

/-! ### Claims -/

/-- Claim C1 (amended): for every successfully constructed reader,
`data_len_bytes()` equals `(offset + uncompressed_length)` of the entry
the code selects as offset-maximal, minus the minimum offset over all
entries (when that sum fits in `u64`); for a single-level texture it
equals that level's uncompressed length exactly.  The selected entry
attains the maximal offset, so this differs from the claim's original
`max over entries of (offset + uncompressed_length)` form exactly when
the offset-maximal entry does not also maximise the sum. -/
theorem ktx2_C1_data_len_bytes (le : Bool) (reg : Nat → Bool) (s s₁ : ByteStream) (r : Reader)
    (hnew : Reader.new le reg s = some (.ok r, s₁)) :
    ∃ L m, r.last_level = some L ∧ r.first_level_offset_bytes = some m ∧
      L ∈ r.levels_index ∧
      (∀ e ∈ r.levels_index, e.offset ≤ L.offset) ∧
      (∀ e ∈ r.levels_index, m ≤ e.offset) ∧
      (L.offset + L.uncompressed_length_bytes < 18446744073709551616 →
        r.data_len_bytes = some (L.offset + L.uncompressed_length_bytes - m)) ∧
      (∀ e, r.levels_index = [e] →
        r.data_len_bytes = some e.uncompressed_length_bytes) := by
  rcases reader_new_ok_inv le reg s s₁ r hnew with ⟨_, hbound⟩
  have hne := reader_new_ok_nonempty le reg s s₁ r hnew
  obtain ⟨x, xs, hxx⟩ : ∃ x xs, r.levels_index = x :: xs := by
    cases hc : r.levels_index with
    | nil => exact absurd hc hne
    | cons a t => exact ⟨a, t, rfl⟩
  rcases listMinNat?_of_ne_nil (r.levels_index.map LevelIndex.offset) (by simp [hxx]) with ⟨m, hm⟩
  have hmle : ∀ e ∈ r.levels_index, m ≤ e.offset := fun e he =>
    listMinNat?_le hm e.offset (List.mem_map_of_mem LevelIndex.offset he)
  have hlast : r.last_level = some (lastByOffset x xs) := by
    unfold Reader.last_level
    rw [hxx]
  have hLmem : lastByOffset x xs ∈ r.levels_index := by
    rw [hxx]
    rcases lastByOffset_mem xs x with h | h
    · rw [h]; exact List.mem_cons_self x xs
    · exact List.mem_cons_of_mem x h
  have hLmax : ∀ e ∈ r.levels_index, e.offset ≤ (lastByOffset x xs).offset := by
    intro e he
    rcases lastByOffset_le xs x with ⟨h1, h2⟩
    rw [hxx] at he
    rcases List.mem_cons.mp he with rfl | het
    · exact h1
    · exact h2 e het
  have hfirst : r.first_level_offset_bytes = some m := hm
  refine ⟨lastByOffset x xs, m, hlast, hfirst, hLmem, hLmax, hmle, ?_, ?_⟩
  · intro hlt
    simp only [Reader.data_len_bytes, hfirst, hlast]
    have hmL : m ≤ (lastByOffset x xs).offset + (lastByOffset x xs).uncompressed_length_bytes :=
      Nat.le_trans (hmle _ hLmem) (Nat.le_add_right _ _)
    rw [wrapSub_eq 18446744073709551616 _ m hmL hlt]
  · intro e he
    have hx : x = e ∧ xs = [] := by
      rw [hxx] at he
      exact ⟨((List.cons.injEq x xs e []).mp he).1, ((List.cons.injEq x xs e []).mp he).2⟩
    rcases hx with ⟨rfl, rfl⟩
    have hmm : m = x.offset := by
      rw [hxx] at hm
      simp [listMinNat?] at hm
      omega
    simp only [Reader.data_len_bytes, hfirst, hlast]
    rcases hbound x (by rw [hxx]; exact List.mem_cons_self x []) with ⟨ho, _, hu⟩
    rw [hmm]
    exact congrArg some
      (wrapAddSub_cancel 18446744073709551616 x.offset x.uncompressed_length_bytes ho hu)

/-- Claim C1, witness: on the spec's end-to-end single-level stream the
constructed reader satisfies the amended statement; in particular
`data_len_bytes()` is the single level's uncompressed length, 64. -/
theorem ktx2_C1_data_len_bytes_witness :
    Reader.new true sampleFormatRegistry goodStream = some (.ok goodReader, goodReader.input) ∧
    (∃ L m, goodReader.last_level = some L ∧ goodReader.first_level_offset_bytes = some m ∧
      L ∈ goodReader.levels_index ∧
      (∀ e ∈ goodReader.levels_index, e.offset ≤ L.offset) ∧
      (∀ e ∈ goodReader.levels_index, m ≤ e.offset) ∧
      (L.offset + L.uncompressed_length_bytes < 18446744073709551616 →
        goodReader.data_len_bytes = some (L.offset + L.uncompressed_length_bytes - m)) ∧
      (∀ e, goodReader.levels_index = [e] →
        goodReader.data_len_bytes = some e.uncompressed_length_bytes)) ∧
    goodReader.data_len_bytes = some 64 :=
  ⟨goodReader_new,
   ktx2_C1_data_len_bytes true sampleFormatRegistry goodStream goodReader.input goodReader
     goodReader_new,
   by decide⟩

/-- Claim C1, counterexample to the original wording: on a two-level
stream whose offset-maximal entry `(offset 100, uncompressed 10)` ends
before the other entry `(offset 90, uncompressed 30)`, the constructed
reader reports `data_len_bytes() = 20`, while
`(max over entries of offset + uncompressed_length) - (min over
entries of offset) = 120 - 90 = 30`. -/
theorem ktx2_C1_data_len_bytes_counterexample :
    ((Reader.new true sampleFormatRegistry twoLevelStream).map (fun p =>
      Except.map (fun r : Reader => (r.data_len_bytes, claimedPayloadLen r.levels_index)) p.1))
      = some (.ok (some 20, some 30)) ∧ (20 : Nat) ≠ 30 :=
  ⟨by decide, by decide⟩

/-- Claim C2: for every successfully constructed reader,
`regions_description()` has one entry per on-disk level-index entry, in
the same order (entry `j` is derived from level-index entry `j`), its
count is `max(level_count, 1)`, each entry's `offset_bytes` is that
entry's offset minus the minimal offset, and the offset-minimal level
reports `offset_bytes = 0`. -/
theorem ktx2_C2_regions_description (le : Bool) (reg : Nat → Bool) (s s₁ : ByteStream)
    (r : Reader) (hnew : Reader.new le reg s = some (.ok r, s₁)) :
    ∃ regs m, r.regions_description = some regs ∧ r.first_level_offset_bytes = some m ∧
      regs.length = max r.head.level_count 1 ∧
      regs.length = r.levels_index.length ∧
      (∀ j (hj : j < regs.length) (hj' : j < r.levels_index.length),
        regs[j] = r.region_from_level_index j (r.levels_index[j].offset - m)) ∧
      (∀ j (hj : j < regs.length) (hj' : j < r.levels_index.length),
        regs[j].offset_bytes = r.levels_index[j].offset - m) ∧
      (∃ j, ∃ (hj : j < regs.length), regs[j].offset_bytes = 0) := by
  rcases reader_new_ok_inv le reg s s₁ r hnew with ⟨hlen, hbound⟩
  have hne := reader_new_ok_nonempty le reg s s₁ r hnew
  rcases listMinNat?_of_ne_nil (r.levels_index.map LevelIndex.offset)
    (by intro hc; exact hne (List.map_eq_nil_iff.mp hc)) with ⟨m, hm⟩
  have hmle : ∀ e ∈ r.levels_index, m ≤ e.offset := fun e he =>
    listMinNat?_le hm e.offset (List.mem_map_of_mem LevelIndex.offset he)
  have hregs : r.regions_description = some (r.levels_index.enum.map (fun p =>
      r.region_from_level_index p.1
        ((p.2.offset + 18446744073709551616 - m) % 18446744073709551616))) := by
    unfold Reader.regions_description
    rw [show r.first_level_offset_bytes = some m from hm]
  have hlens : (r.levels_index.enum.map (fun p =>
      r.region_from_level_index p.1
        ((p.2.offset + 18446744073709551616 - m) % 18446744073709551616))).length
      = r.levels_index.length := by
    rw [List.length_map, List.enum_length]
  have hat : ∀ j (hj' : j < r.levels_index.length)
      (hmap : j < (r.levels_index.enum.map (fun p =>
        r.region_from_level_index p.1
          ((p.2.offset + 18446744073709551616 - m) % 18446744073709551616))).length),
      (r.levels_index.enum.map (fun p =>
        r.region_from_level_index p.1
          ((p.2.offset + 18446744073709551616 - m) % 18446744073709551616)))[j] =
      r.region_from_level_index j (r.levels_index[j].offset - m) := by
    intro j hj' hmap
    rw [List.getElem_map, List.getElem_enum]
    dsimp only
    have he : r.levels_index[j] ∈ r.levels_index := List.getElem_mem hj'
    rcases hbound _ he with ⟨ho, _, _⟩
    rw [wrapSub_eq_of_lt 18446744073709551616 _ m (hmle _ he) ho]
  refine ⟨_, m, hregs, hm, by rw [hlens]; exact hlen, hlens, ?_, ?_, ?_⟩
  · intro j hj hj'
    exact hat j hj' hj
  · intro j hj hj'
    rw [hat j hj' hj]
    rfl
  · rcases List.mem_map.mp (listMinNat?_mem hm) with ⟨e, hem, heo⟩
    rcases List.mem_iff_get.mp hem with ⟨⟨j, hj'⟩, hje⟩
    refine ⟨j, by omega, ?_⟩
    rw [hat j hj' (by omega)]
    have : r.levels_index[j] = e := hje
    rw [this, heo]
    simp [Reader.region_from_level_index]

/-- Claim C2, witness: on the spec's end-to-end single-level stream the
single region has `offset_bytes = 0` and the count is 1. -/
theorem ktx2_C2_regions_description_witness :
    Reader.new true sampleFormatRegistry goodStream = some (.ok goodReader, goodReader.input) ∧
    (∃ regs m, goodReader.regions_description = some regs ∧
      goodReader.first_level_offset_bytes = some m ∧
      regs.length = max goodReader.head.level_count 1 ∧
      regs.length = goodReader.levels_index.length ∧
      (∀ j (hj : j < regs.length) (hj' : j < goodReader.levels_index.length),
        regs[j] = goodReader.region_from_level_index j
          (goodReader.levels_index[j].offset - m)) ∧
      (∀ j (hj : j < regs.length) (hj' : j < goodReader.levels_index.length),
        regs[j].offset_bytes = goodReader.levels_index[j].offset - m) ∧
      (∃ j, ∃ (hj : j < regs.length), regs[j].offset_bytes = 0)) ∧
    goodReader.regions_description = some [⟨0, 1, 0, 4, 4, 1⟩] :=
  ⟨goodReader_new,
   ktx2_C2_regions_description true sampleFormatRegistry goodStream goodReader.input goodReader
     goodReader_new,
   by decide⟩

/-- Claim C3 (amended): with a matching identifier and a recognized
format id, construction fails with Zero-width when the base-width field
is 0; with Zero-face-count when the face-count field is 0 and the
base-width field is nonzero; and with Unsupported-feature when the
supercompression field is nonzero and both earlier checks pass.  The
checks run in the source's field order, so an earlier failure shadows a
later one.  In each case construction returns right after the single
48-byte head read — the level-index decode (seek to 80 plus block read)
never runs — and only the error is returned, never a partially
populated header. -/
theorem ktx2_C3_header_checks (le : Bool) (reg : Nat → Bool) (s : ByteStream)
    (hpos : s.pos = 0) (hlen : 48 ≤ s.data.length)
    (hid : s.data.take 12 = ktx2Identifier)
    (hreg : reg (readU32N le s.data 12) = true) :
    (readU32N le s.data 20 = 0 →
      Reader.new le reg s =
        some (.error (.parseError .zeroWidth), ⟨s.data, 48, s.ops ++ [.read 48]⟩)) ∧
    (readU32N le s.data 20 ≠ 0 → readU32N le s.data 36 = 0 →
      Reader.new le reg s =
        some (.error (.parseError .zeroFaceCount), ⟨s.data, 48, s.ops ++ [.read 48]⟩)) ∧
    (readU32N le s.data 20 ≠ 0 → readU32N le s.data 36 ≠ 0 → readU32N le s.data 44 ≠ 0 →
      Reader.new le reg s =
        some (.error (.parseError (.unsupportedFeature "supercompression scheme")),
          ⟨s.data, 48, s.ops ++ [.read 48]⟩)) := by
  have hrh := read_head_eq le reg s hpos hlen
  rw [if_pos hid, header_from_bytes_eq le reg (s.data.take 48),
    readU32N_take le s.data 48 12 (by omega), readU32N_take le s.data 48 20 (by omega),
    readU32N_take le s.data 48 36 (by omega), readU32N_take le s.data 48 44 (by omega),
    if_pos hreg] at hrh
  refine ⟨?_, ?_, ?_⟩
  · intro h20
    have h := hrh
    rw [if_pos h20] at h
    exact reader_new_of_read_head_error le reg s _ _ h
  · intro h20 h36
    have h := hrh
    rw [if_neg h20, if_pos h36] at h
    exact reader_new_of_read_head_error le reg s _ _ h
  · intro h20 h36 h44
    have h := hrh
    rw [if_neg h20, if_neg h36, if_neg h44] at h
    exact reader_new_of_read_head_error le reg s _ _ h

/-- Claim C3, witness: a stream with a valid identifier, format id 37
and base width 0 fails with Zero-width after only the 48-byte head
read. -/
theorem ktx2_C3_header_checks_witness :
    (zeroWidthStream.pos = 0 ∧ 48 ≤ zeroWidthStream.data.length ∧
      zeroWidthStream.data.take 12 = ktx2Identifier ∧
      sampleFormatRegistry (readU32N true zeroWidthStream.data 12) = true ∧
      readU32N true zeroWidthStream.data 20 = 0) ∧
    ((readU32N true zeroWidthStream.data 20 = 0 →
      Reader.new true sampleFormatRegistry zeroWidthStream =
        some (.error (.parseError .zeroWidth),
          ⟨zeroWidthStream.data, 48, zeroWidthStream.ops ++ [.read 48]⟩)) ∧
    (readU32N true zeroWidthStream.data 20 ≠ 0 → readU32N true zeroWidthStream.data 36 = 0 →
      Reader.new true sampleFormatRegistry zeroWidthStream =
        some (.error (.parseError .zeroFaceCount),
          ⟨zeroWidthStream.data, 48, zeroWidthStream.ops ++ [.read 48]⟩)) ∧
    (readU32N true zeroWidthStream.data 20 ≠ 0 → readU32N true zeroWidthStream.data 36 ≠ 0 →
        readU32N true zeroWidthStream.data 44 ≠ 0 →
      Reader.new true sampleFormatRegistry zeroWidthStream =
        some (.error (.parseError (.unsupportedFeature "supercompression scheme")),
          ⟨zeroWidthStream.data, 48, zeroWidthStream.ops ++ [.read 48]⟩))) :=
  ⟨⟨rfl, by decide, by decide, by decide, by decide⟩,
   ktx2_C3_header_checks true sampleFormatRegistry zeroWidthStream rfl (by decide) (by decide)
     (by decide)⟩

/-- Claim C3, counterexample to the original wording: on a stream whose
base-width field AND face-count field are both 0 (identifier valid,
format accepted), construction fails with Zero-width, not with
Zero-face-count as the claim's second conditional asserts. -/
theorem ktx2_C3_header_checks_counterexample :
    readU32N true zeroWidthFaceStream.data 36 = 0 ∧
    Reader.new true (fun _ => true) zeroWidthFaceStream =
      some (.error (.parseError .zeroWidth), ⟨zeroWidthFaceData, 48, [.read 48]⟩) ∧
    ParseError.zeroWidth ≠ ParseError.zeroFaceCount :=
  ⟨by decide, by decide, by decide⟩

/-- Claim C4 (amended): the derived width/height/depth of region `j`
equal `max(b >> (j mod 32), 1)` for the respective base dimension `b` —
the `u32` shift masks its amount — and are never 0; for `j < 32` this
coincides with the claim's `max(b >> j, 1)`. -/
theorem ktx2_C4_level_dims (r : Reader) (regs : List RegionDescription)
    (hregs : r.regions_description = some regs) (j : Nat) (hj : j < regs.length) :
    regs[j].width = max (r.head.base_width >>> (j % 32)) 1 ∧
    regs[j].height = max (r.head.base_height >>> (j % 32)) 1 ∧
    regs[j].depth = max (r.head.base_depth >>> (j % 32)) 1 ∧
    1 ≤ regs[j].width ∧ 1 ≤ regs[j].height ∧ 1 ≤ regs[j].depth ∧
    (j < 32 →
      regs[j].width = max (r.head.base_width >>> j) 1 ∧
      regs[j].height = max (r.head.base_height >>> j) 1 ∧
      regs[j].depth = max (r.head.base_depth >>> j) 1) := by
  have hmod : j % 4294967296 % 32 = j % 32 :=
    Nat.mod_mod_of_dvd j (by norm_num)
  rcases hmin : r.first_level_offset_bytes with _ | m
  · simp only [Reader.regions_description, hmin] at hregs
    exact Option.noConfusion hregs
  · simp only [Reader.regions_description, hmin] at hregs
    injection hregs with hregs
    subst hregs
    rw [List.getElem_map, List.getElem_enum]
    dsimp only [Reader.region_from_level_index, level_size]
    rw [hmod]
    refine ⟨rfl, rfl, rfl, Nat.le_max_right _ _, Nat.le_max_right _ _, Nat.le_max_right _ _, ?_⟩
    intro h32
    rw [Nat.mod_eq_of_lt h32]
    exact ⟨rfl, rfl, rfl⟩

/-- Claim C4, witness: for the 17x17x17 reader, region 3 has
dimensions `max(17 >> 3, 1) = 2`, matching the spec's example. -/
theorem ktx2_C4_level_dims_witness :
    deepMipReader.regions_description = some deepMipRegs ∧
    3 < deepMipRegs.length ∧
    (deepMipRegs.getD 3 ⟨0, 0, 0, 0, 0, 0⟩).width = max (17 >>> (3 % 32)) 1 ∧
    max (17 >>> (3 % 32)) 1 = 2 := by
  have hregs : deepMipReader.regions_description = some deepMipRegs := by decide
  have hj : 3 < deepMipRegs.length := by decide
  have h := ktx2_C4_level_dims deepMipReader deepMipRegs hregs 3 hj
  refine ⟨hregs, hj, ?_, by decide⟩
  have hgd : deepMipRegs.getD 3 ⟨0, 0, 0, 0, 0, 0⟩ = deepMipRegs[3] := by
    rw [List.getD_eq_getElem?_getD, List.getElem?_eq_getElem hj]
    rfl
  rw [hgd, h.1]
  rfl

/-- Claim C4, counterexample to the original wording: for the
17x17x17 reader with 33 levels, region 32 reports width 17 (the `u32`
shift amount is masked to 0), while the claim's formula
`max(17 >> 32, 1)` is 1. -/
theorem ktx2_C4_level_dims_counterexample :
    ((deepMipReader.regions_description).map (fun regs =>
      (regs.getD 32 ⟨0, 0, 0, 0, 0, 0⟩).width)) = some 17 ∧
    max (17 >>> 32) 1 = 1 ∧ (17 : Nat) ≠ 1 :=
  ⟨by decide, by decide, by decide⟩

/-- Claim C5 (amended): for every header whose `max(level_count,1) * 24`
fits in `u32`, the level-index decoder seeks to the fixed absolute
offset 80, reads the whole `max(level_count,1) * 24`-byte block in one
read, and slices it into `max(level_count,1)` entries of three
consecutive 8-byte integers each (entry `j` is decoded from stream
bytes `80 + 24j .. 80 + 24j + 24`); `level_count = 0` is decoded
identically to `level_count = 1`.  Without the `u32` bound the wrapped
product makes the decoder request the wrong number of bytes. -/
theorem ktx2_C5_level_index_decode (le : Bool) (h : Header) (s : ByteStream)
    (hcount : max h.level_count 1 * 24 < 4294967296) :
    (80 + max h.level_count 1 * 24 ≤ s.data.length →
      ∃ entries, read_level_index le s h =
          (some (.ok entries),
           ⟨s.data, 80 + max h.level_count 1 * 24,
            s.ops ++ [.seek 80, .read (max h.level_count 1 * 24)]⟩) ∧
        entries.length = max h.level_count 1 ∧
        ∀ j, j < max h.level_count 1 →
          entries[j]? =
            some (LevelIndex.from_bytes le ((s.data.drop (80 + j * 24)).take 24))) ∧
    (h.level_count = 0 →
      read_level_index le s h =
        read_level_index le s ⟨h.format, h.type_size, h.base_width, h.base_height,
          h.base_depth, h.layer_count, h.face_count, 1, h.supercompression_scheme⟩) := by
  constructor
  · intro hdata
    have hmod : max h.level_count 1 * 24 % 4294967296 = max h.level_count 1 * 24 :=
      Nat.mod_eq_of_lt hcount
    have hblock : ((s.data.drop 80).take (max h.level_count 1 * 24)).length =
        max h.level_count 1 * 24 := by
      rw [List.length_take, List.length_drop]
      omega
    rcases sliceEntriesGo_spec le ((s.data.drop 80).take (max h.level_count 1 * 24))
        (max h.level_count 1) 0 (by omega) (by omega) with ⟨entries, hsl, hlen, hget⟩
    refine ⟨entries, ?_, hlen, ?_⟩
    · simp only [read_level_index, ByteStream.seek, ByteStream.readExact, hmod]
      rw [if_pos (by omega)]
      unfold sliceEntries
      dsimp only
      rw [hsl]
      simp [List.append_assoc]
    · intro j hj
      rw [hget j hj]
      have hchunk : (((s.data.drop 80).take (max h.level_count 1 * 24)).drop ((0 + j) * 24)).take 24
          = (s.data.drop (80 + j * 24)).take 24 := by
        rw [Nat.zero_add, List.drop_take, List.drop_drop, List.take_take]
        congr 1
        have : max h.level_count 1 * 24 - j * 24 ≥ 24 := by
          have : (j + 1) * 24 ≤ max h.level_count 1 * 24 := Nat.mul_le_mul_right 24 hj
          omega
        omega
      rw [hchunk]
  · intro h0
    simp only [read_level_index, h0]
    have h01 : (0 : Nat) ⊔ 1 = 1 ⊔ 1 := rfl
    rw [h01]

/-- Claim C5, witness: on the spec's end-to-end stream (level count 1)
the decoder seeks to 80, reads 24 bytes in one read, and decodes the
single entry from stream bytes 80..104. -/
theorem ktx2_C5_level_index_decode_witness :
    (max goodHeader.level_count 1 * 24 < 4294967296 ∧
      80 + max goodHeader.level_count 1 * 24 ≤ goodStream.data.length) ∧
    ((80 + max goodHeader.level_count 1 * 24 ≤ goodStream.data.length →
      ∃ entries, read_level_index true goodStream goodHeader =
          (some (.ok entries),
           ⟨goodStream.data, 80 + max goodHeader.level_count 1 * 24,
            goodStream.ops ++ [.seek 80, .read (max goodHeader.level_count 1 * 24)]⟩) ∧
        entries.length = max goodHeader.level_count 1 ∧
        ∀ j, j < max goodHeader.level_count 1 →
          entries[j]? =
            some (LevelIndex.from_bytes true ((goodStream.data.drop (80 + j * 24)).take 24))) ∧
    (goodHeader.level_count = 0 →
      read_level_index true goodStream goodHeader =
        read_level_index true goodStream ⟨goodHeader.format, goodHeader.type_size,
          goodHeader.base_width, goodHeader.base_height, goodHeader.base_depth,
          goodHeader.layer_count, goodHeader.face_count, 1,
          goodHeader.supercompression_scheme⟩)) :=
  ⟨⟨by decide, by decide⟩,
   ktx2_C5_level_index_decode true goodHeader goodStream (by decide)⟩

/-- Claim C5, counterexample to the original wording: for a header with
`level_count = 178956971` the `u32` product `178956971 * 24` wraps to
8, so on an 80-byte stream the decoder performs a read of just 8 bytes
(which fails at EOF) instead of the claimed `178956971 * 24`-byte
read. -/
theorem ktx2_C5_level_index_decode_counterexample :
    read_level_index true shortZeroStream hugeLevelHeader =
      (some (.error .ioError), ⟨shortZeroStream.data, 80, [.seek 80, .read 8]⟩) ∧
    max hugeLevelHeader.level_count 1 * 24 = 4294967304 ∧
    (8 : Nat) ≠ 4294967304 :=
  ⟨by decide, by decide, by decide⟩

/-- Claim C6: when a 48-byte head can be read but its first 12 bytes
differ from the magic sequence, construction fails with Bad-identifier
carrying exactly the 12 bytes read, for every format registry and
either host byte order (so no header field decoding can have influenced
the outcome), and the stream has seen only the single 48-byte head
read. -/
theorem ktx2_C6_bad_identifier (le : Bool) (reg : Nat → Bool) (s : ByteStream)
    (hpos : s.pos = 0) (hlen : 48 ≤ s.data.length)
    (hbad : s.data.take 12 ≠ ktx2Identifier) :
    Reader.new le reg s =
      some (.error (.parseError (.badIdentifier (s.data.take 12))),
        ⟨s.data, 48, s.ops ++ [.read 48]⟩) := by
  have hrh := read_head_eq le reg s hpos hlen
  rw [if_neg hbad] at hrh
  exact reader_new_of_read_head_error le reg s _ _ hrh

/-- Claim C6, witness: a stream whose identifier has byte 5 changed
from `0x32` to `0x34` fails with Bad-identifier carrying the 12 bytes
actually read. -/
theorem ktx2_C6_bad_identifier_witness :
    (badMagicStream.pos = 0 ∧ 48 ≤ badMagicStream.data.length ∧
      badMagicStream.data.take 12 ≠ ktx2Identifier) ∧
    Reader.new true sampleFormatRegistry badMagicStream =
      some (.error (.parseError (.badIdentifier (badMagicStream.data.take 12))),
        ⟨badMagicStream.data, 48, badMagicStream.ops ++ [.read 48]⟩) :=
  ⟨⟨rfl, by decide, by decide⟩,
   ktx2_C6_bad_identifier true sampleFormatRegistry badMagicStream rfl (by decide) (by decide)⟩

theorem reader_new_ok_lens (le : Bool) (reg : Nat → Bool) (s s₁ : ByteStream) (r : Reader)
    (hnew : Reader.new le reg s = some (.ok r, s₁)) :
    ∃ d m, r.data_len_bytes = some d ∧ r.first_level_offset_bytes = some m := by
  have hne := reader_new_ok_nonempty le reg s s₁ r hnew
  obtain ⟨x, xs, hxx⟩ : ∃ x xs, r.levels_index = x :: xs := by
    cases hc : r.levels_index with
    | nil => exact absurd hc hne
    | cons a t => exact ⟨a, t, rfl⟩
  rcases listMinNat?_of_ne_nil (r.levels_index.map LevelIndex.offset) (by simp [hxx])
    with ⟨m, hm⟩
  have hlast : r.last_level = some (lastByOffset x xs) := by
    unfold Reader.last_level
    rw [hxx]
  have hd : r.data_len_bytes =
      some ((((lastByOffset x xs).offset + (lastByOffset x xs).uncompressed_length_bytes) %
        18446744073709551616 + 18446744073709551616 - m) % 18446744073709551616) := by
    simp only [Reader.data_len_bytes, Reader.first_level_offset_bytes, hm, hlast]
  exact ⟨_, m, hd, hm⟩

/-- Claim C7: for every constructed reader, a caller buffer whose
length differs from `data_len_bytes()` makes `read_data_to` fail with
Bad-buffer carrying the expected length, returning the reader (and in
particular its stream: position and trace) completely unchanged; a
matching buffer triggers exactly one seek to the minimal level offset
followed by one read of exactly `data_len_bytes()` bytes, whose
success fills the buffer with that byte range. -/
theorem ktx2_C7_read_data_to (le : Bool) (reg : Nat → Bool) (s s₁ : ByteStream) (r : Reader)
    (hnew : Reader.new le reg s = some (.ok r, s₁)) :
    ∃ d m, r.data_len_bytes = some d ∧ r.first_level_offset_bytes = some m ∧
      (∀ buf : List Nat, buf.length ≠ d →
        r.read_data_to buf = some (.error (.badBuffer d), r)) ∧
      (∀ buf : List Nat, buf.length = d →
        ∃ res r₂, r.read_data_to buf = some (res, r₂) ∧
          r₂.head = r.head ∧ r₂.levels_index = r.levels_index ∧
          r₂.input.data = r.input.data ∧
          r₂.input.ops = r.input.ops ++ [.seek m, .read d] ∧
          ∀ bytes, res = .ok bytes → bytes = (r.input.data.drop m).take d) := by
  rcases reader_new_ok_lens le reg s s₁ r hnew with ⟨d, m, hd, hm⟩
  refine ⟨d, m, hd, hm, ?_, ?_⟩
  · intro buf hbuf
    simp only [Reader.read_data_to, hd]
    rw [if_neg hbuf]
  · intro buf hbuf
    simp only [Reader.read_data_to, hd, hm, ByteStream.seek, ByteStream.readExact]
    rw [if_pos hbuf]
    by_cases hc : m + buf.length ≤ r.input.data.length
    · rw [if_pos hc]
      refine ⟨.ok ((r.input.data.drop m).take buf.length),
        ⟨⟨r.input.data, m + buf.length, r.input.ops ++ [.seek m] ++ [.read buf.length]⟩,
          r.head, r.levels_index⟩, rfl, rfl, rfl, rfl, ?_, ?_⟩
      · simp [List.append_assoc, hbuf]
      · intro bytes hres
        injection hres with hres
        rw [hres.symm, hbuf]
    · rw [if_neg hc]
      refine ⟨.error (.readError .ioError),
        ⟨⟨r.input.data, m, r.input.ops ++ [.seek m] ++ [.read buf.length]⟩,
          r.head, r.levels_index⟩, rfl, rfl, rfl, rfl, ?_, ?_⟩
      · simp [List.append_assoc, hbuf]
      · intro bytes hres
        exact Except.noConfusion hres

/-- Claim C7, witness: on the constructed end-to-end reader
(`data_len_bytes = 64`), a 63-byte buffer is rejected with Bad-buffer
64 and the reader is returned unchanged. -/
theorem ktx2_C7_read_data_to_witness :
    goodReader.data_len_bytes = some 64 ∧
    goodReader.read_data_to (List.replicate 63 0) =
      some (.error (.badBuffer 64), goodReader) := by
  obtain ⟨d, m, hd, hm, hmis, hok⟩ := ktx2_C7_read_data_to true sampleFormatRegistry
    goodStream goodReader.input goodReader goodReader_new
  have h64 : goodReader.data_len_bytes = some 64 := by decide
  have hd64 : d = 64 := by
    have := hd.symm.trans h64
    injection this
  subst hd64
  exact ⟨h64, hmis (List.replicate 63 0) (by simp)⟩

/-- Claim C8: the code decodes every multi-byte field with
`byteorder::NativeEndian`, the host's byte order, not little-endian.
On a big-endian host (`le = false`) the field bytes `01 00 00 00`
decode to `2^24` rather than 1, and a whole header decoded from the
same bytes differs between hosts — contradicting the claim (and the
KTX2 format specification, which fixes little-endian; the spec itself
flags this as a latent portability bug). -/
theorem ktx2_C8_native_endianness :
    readU32N true [1, 0, 0, 0] 0 = 1 ∧
    readU32N false [1, 0, 0, 0] 0 = 16777216 ∧
    readU64N true [1, 0, 0, 0, 0, 0, 0, 0] 0 = 1 ∧
    readU64N false [1, 0, 0, 0, 0, 0, 0, 0] 0 = 72057594037927936 ∧
    (Header.from_bytes true (fun _ => true) nativeEndianHeadBytes).map Header.base_width
      = .ok 1 ∧
    (Header.from_bytes false (fun _ => true) nativeEndianHeadBytes).map Header.base_width
      = .ok 16777216 ∧
    (16777216 : Nat) ≠ 1 :=
  ⟨by decide, by decide, by decide, by decide, by decide, by decide, by decide⟩

/-- Claim C9: `read_data()` allocates its buffer with length exactly
`data_len_bytes()`, so on every constructed reader the Bad-buffer
outcome of the inner `read_data_to` call is unreachable and
`read_data()` always returns a value (the filled buffer or a
propagated I/O error) instead of hitting the panicking branch. -/
theorem ktx2_C9_read_data (le : Bool) (reg : Nat → Bool) (s s₁ : ByteStream) (r : Reader)
    (hnew : Reader.new le reg s = some (.ok r, s₁)) :
    ∃ d, r.data_len_bytes = some d ∧ (List.replicate d 0).length = d ∧
      (∀ exp r₂, r.read_data_to (List.replicate d 0) ≠ some (.error (.badBuffer exp), r₂)) ∧
      (r.read_data).isSome := by
  rcases reader_new_ok_lens le reg s s₁ r hnew with ⟨d, m, hd, hm⟩
  have hrdt : ∀ exp r₂,
      r.read_data_to (List.replicate d 0) ≠ some (.error (.badBuffer exp), r₂) := by
    intro exp r₂ hcontra
    simp only [Reader.read_data_to, hd, hm, ByteStream.seek, ByteStream.readExact] at hcontra
    rw [if_pos (List.length_replicate d 0)] at hcontra
    by_cases hc : m + (List.replicate d 0).length ≤ r.input.data.length
    · rw [if_pos hc] at hcontra
      simp at hcontra
    · rw [if_neg hc] at hcontra
      simp at hcontra
  refine ⟨d, hd, List.length_replicate d 0, hrdt, ?_⟩
  simp only [Reader.read_data, Reader.read_data_to, hd, hm, ByteStream.seek,
    ByteStream.readExact]
  rw [if_pos (List.length_replicate d 0)]
  by_cases hc : m + (List.replicate d 0).length ≤ r.input.data.length
  · rw [if_pos hc]
    rfl
  · rw [if_neg hc]
    rfl

/-- Claim C9, witness: on the constructed end-to-end reader,
`read_data()` succeeds (returning the 64 payload bytes) and the inner
call cannot produce Bad-buffer. -/
theorem ktx2_C9_read_data_witness :
    (goodReader.read_data).isSome ∧
    (∀ exp r₂, goodReader.read_data_to (List.replicate 64 0) ≠
      some (.error (.badBuffer exp), r₂)) := by
  obtain ⟨d, hd, _, hne, hsome⟩ := ktx2_C9_read_data true sampleFormatRegistry goodStream
    goodReader.input goodReader goodReader_new
  have h64 : goodReader.data_len_bytes = some 64 := by decide
  have hd64 : d = 64 := by
    have := hd.symm.trans h64
    injection this
  subst hd64
  exact ⟨hsome, hne⟩

/-- Claim C10: every successfully constructed reader stores a nonempty
level index of length `max(level_count, 1)`, so the minimum/maximum
offset lookups (and with them `data_len_bytes()` and
`regions_description()`) always produce a value — the `expect` panic
branches are unreachable. -/
theorem ktx2_C10_accessors_total (le : Bool) (reg : Nat → Bool) (s s₁ : ByteStream)
    (r : Reader) (hnew : Reader.new le reg s = some (.ok r, s₁)) :
    r.levels_index ≠ [] ∧
    r.levels_index.length = max r.head.level_count 1 ∧
    (r.first_level_offset_bytes).isSome ∧
    (r.last_level).isSome ∧
    (r.data_len_bytes).isSome ∧
    (r.regions_description).isSome := by
  have hne := reader_new_ok_nonempty le reg s s₁ r hnew
  have hlen := (reader_new_ok_inv le reg s s₁ r hnew).1
  obtain ⟨x, xs, hxx⟩ : ∃ x xs, r.levels_index = x :: xs := by
    cases hc : r.levels_index with
    | nil => exact absurd hc hne
    | cons a t => exact ⟨a, t, rfl⟩
  rcases listMinNat?_of_ne_nil (r.levels_index.map LevelIndex.offset) (by simp [hxx])
    with ⟨m, hm⟩
  have hlast : r.last_level = some (lastByOffset x xs) := by
    unfold Reader.last_level
    rw [hxx]
  refine ⟨hne, hlen, ?_, ?_, ?_, ?_⟩
  · rw [show r.first_level_offset_bytes = listMinNat? (r.levels_index.map LevelIndex.offset)
      from rfl, hm]
    rfl
  · rw [hlast]
    rfl
  · simp only [Reader.data_len_bytes, Reader.first_level_offset_bytes, hm, hlast]
    rfl
  · simp only [Reader.regions_description, Reader.first_level_offset_bytes, hm]
    rfl

/-- Claim C10, witness: the constructed end-to-end reader has the
single-entry level index and all accessors produce values. -/
theorem ktx2_C10_accessors_total_witness :
    Reader.new true sampleFormatRegistry goodStream = some (.ok goodReader, goodReader.input) ∧
    (goodReader.levels_index ≠ [] ∧
      goodReader.levels_index.length = max goodReader.head.level_count 1 ∧
      (goodReader.first_level_offset_bytes).isSome ∧
      (goodReader.last_level).isSome ∧
      (goodReader.data_len_bytes).isSome ∧
      (goodReader.regions_description).isSome) :=
  ⟨goodReader_new,
   ktx2_C10_accessors_total true sampleFormatRegistry goodStream goodReader.input goodReader
     goodReader_new⟩

end Ktx2
